import Mathlib

/-!
Verification of the conversation-handling core of the `goravine/openai-discord`
repository (`src/bot/index.ts`): the `chunkConversation` function, and the
`messageCreate` handler's conversation-history update, completion-call loop,
reply emission and history trimming.  Machine strings are Lean `String`s; the
JavaScript array of `{role, content}` records is a `List Msg`; the sequence of
observable side effects of one handler turn (channel sends, completion-endpoint
calls, placeholder deletion) is a `List Event`.

The handler embedding covers src/bot/index.ts lines 150-215, starting from the
`messageContent` value (the inbound content with the bot mention stripped and
trimmed, line 151).  The completion endpoint is abstracted as an oracle
`respond : List Msg → Except String String` giving, for the chunk posted in the
request body, either the completion text
(`response.data.choices[0].message.content`) or the axios error message of the
failed request.
-/

namespace OpenAIDiscord

/-- A conversation message, as stored in `conversationHistory`:
`{ role: string, content: string }` (src/bot/index.ts line 14). -/
structure Msg where
  role : String
  content : String
deriving DecidableEq, Repr

/-- Word count of a message content, as computed by `message.content.split(' ')`
(src/bot/index.ts line 224): JavaScript `split(' ')` produces one element per
maximal run between single-space separators, keeping empties, so its length is
the number of space characters plus one (e.g. `""` has count 1, `"a  b"` has
count 3). -/
def wordCount (s : String) : Nat :=
  s.data.countP (fun c => c = ' ') + 1

/-- The loop of `chunkConversation` (src/bot/index.ts lines 223-236): the first
argument is the mutable `currentChunk`, the second the remaining input.  For
each message, if `currentChunk.length + messageTokens.length <= tokensPerChunk`
the message is appended to the current chunk; otherwise the current chunk is
pushed (even when empty) and a new chunk starts with the message.  At the end
the current chunk is pushed when non-empty. -/
def chunkLoop (tokensPerChunk : Nat) : List Msg → List Msg → List (List Msg)
  | currentChunk, [] =>
      if currentChunk.length > 0 then [currentChunk] else []
  | currentChunk, m :: rest =>
      if currentChunk.length + wordCount m.content ≤ tokensPerChunk then
        chunkLoop tokensPerChunk (currentChunk ++ [m]) rest
      else
        currentChunk :: chunkLoop tokensPerChunk [m] rest

/-- The method `Bot.chunkConversation` (src/bot/index.ts lines 219-238). -/
def chunkConversation (conversation : List Msg) (tokensPerChunk : Nat) :
    List (List Msg) :=
  chunkLoop tokensPerChunk [] conversation

/-- Summed per-message word count of a chunk (the quantity the specification's
chunk bound is about). -/
def chunkWords (chunk : List Msg) : Nat :=
  (chunk.map (fun m => wordCount m.content)).sum

/-- The hard-coded chunk budget `tokensPerChunk = 1024`
(src/bot/index.ts line 165). -/
def tokensPerChunk : Nat := 1024

/-- The hard-coded history bound in `conversation.length > 10`
(src/bot/index.ts line 199). -/
def maxConversationLength : Nat := 10

/-- One observable side effect of a handler turn, one constructor per call
site in src/bot/index.ts lines 150-215:
`sendThinking` is `message.channel.send('Thinking...')` (line 163);
`apiCall chunk` is the completion request `axios.post(..., { messages: chunk, ... })`
(line 172); `sendReply text` is `message.channel.send(author + ' ' + allResponse)`
(line 196); `sendCompletionError err` is
`message.channel.send('ERROR: Failed to get chat completion: ' + err)` (line 208);
`sendEmptyNotice` is `message.channel.send('ERROR: No message content provided.')`
(line 212); `deleteThinking` is `thinkingMessage.delete()` (lines 206, 209). -/
inductive Event where
  | sendThinking : Event
  | apiCall : List Msg → Event
  | sendReply : String → Event
  | sendCompletionError : String → Event
  | sendEmptyNotice : Event
  | deleteThinking : Event
deriving DecidableEq, Repr

/-- The text actually passed to `message.channel.send` by each send event. -/
def eventText : Event → Option String
  | Event.sendThinking => some "Thinking..."
  | Event.apiCall _ => none
  | Event.sendReply t => some t
  | Event.sendCompletionError e =>
      some ("ERROR: Failed to get chat completion: " ++ e)
  | Event.sendEmptyNotice => some "ERROR: No message content provided."
  | Event.deleteThinking => none

/-- Appending the user message to the stored history (src/bot/index.ts lines
154-161): when the map has no entry for the channel the history becomes the
singleton `[{role:'user', content}]`, otherwise the message is pushed. -/
def appendUser (stored : Option (List Msg)) (content : String) : List Msg :=
  match stored with
  | none => [⟨"user", content⟩]
  | some conversation => conversation ++ [⟨"user", content⟩]

/-- The sequential completion loop (src/bot/index.ts lines 171-193):
`allResponse` starts as `""` (the accumulator argument) and each chunk's
response text is appended; the first failing request throws, aborting the
loop.  Returns the emitted `apiCall` events in order, and either the final
accumulated `allResponse` or the error. -/
def runChunks (respond : List Msg → Except String String) :
    String → List (List Msg) → List Event × Except String String
  | acc, [] => ([], Except.ok acc)
  | acc, c :: cs =>
      match respond c with
      | Except.error e => ([Event.apiCall c], Except.error e)
      | Except.ok r =>
          let rest := runChunks respond (acc ++ r) cs
          (Event.apiCall c :: rest.1, rest.2)

/-- One turn of the `messageCreate` handler for a message that mentions the
bot (src/bot/index.ts lines 150-215), from the `messageContent` value on.
Input: the completion oracle, `message.author.toString()`, the map entry for
the channel, and `messageContent`.  Output: the new map entry and the emitted
side effects in order.  JavaScript truthiness of `if (messageContent)` is
`messageContent ≠ ""`.  On success the system reply is pushed, the reply is
sent, and the history is trimmed by two `shift()` calls when its length
exceeds `maxConversationLength`; on failure the error notice is sent and the
history keeps only the appended user message. -/
def messageCreateTurn (respond : List Msg → Except String String)
    (authorMention : String) (stored : Option (List Msg))
    (messageContent : String) : Option (List Msg) × List Event :=
  if messageContent ≠ "" then
    let conversation := appendUser stored messageContent
    let res := runChunks respond "" (chunkConversation conversation tokensPerChunk)
    match res.2 with
    | Except.ok allResponse =>
        let conversation2 := conversation ++ [⟨"system", allResponse⟩]
        let conversation3 :=
          if conversation2.length > maxConversationLength then
            conversation2.drop 2
          else
            conversation2
        (some conversation3,
          Event.sendThinking :: res.1 ++
            [Event.sendReply (authorMention ++ " " ++ allResponse),
             Event.deleteThinking])
    | Except.error e =>
        (some conversation,
          Event.sendThinking :: res.1 ++
            [Event.sendCompletionError e, Event.deleteThinking])
  else
    (stored, [Event.sendEmptyNotice])

/-- One inbound bot-mentioning message together with the behaviour of the
completion endpoint while it is handled. -/
structure Turn where
  content : String
  respond : List Msg → Except String String

/-- Iterating the handler over a sequence of turns on one channel, threading
the map entry. -/
def runTurns (authorMention : String) :
    Option (List Msg) → List Turn → Option (List Msg)
  | stored, [] => stored
  | stored, t :: ts =>
      runTurns authorMention
        (messageCreateTurn t.respond authorMention stored t.content).1 ts

/-- Length of the stored history of a channel (0 when the map has no entry). -/
def histLen (stored : Option (List Msg)) : Nat :=
  (stored.getD []).length

/-- The texts of the reply segments among the emitted events (the sends at
src/bot/index.ts line 196, the ones carrying completion text). -/
def replySegments (events : List Event) : List String :=
  events.filterMap (fun e =>
    match e with
    | Event.sendReply t => some t
    | _ => none)

/-- The completion text the oracle yields for a chunk (the per-chunk
completion; defined for chunks whose request succeeds). -/
def responseOf (respond : List Msg → Except String String)
    (chunk : List Msg) : String :=
  match respond chunk with
  | Except.ok r => r
  | Except.error _ => ""

/-! ## Theorems -/

/-- The function `wordCount` is always positive: `split(' ')` never returns an
empty array. -/
theorem wordCount_pos (s : String) : 0 < wordCount s :=
  Nat.succ_pos _

/-- Flattening the chunks produced by `chunkLoop` yields the current chunk
followed by the remaining input. -/
theorem chunkLoop_flatten (b : Nat) (l : List Msg) :
    ∀ cur : List Msg, (chunkLoop b cur l).flatten = cur ++ l := by
  induction l with
  | nil =>
      intro cur
      cases cur <;> simp [chunkLoop]
  | cons m rest ih =>
      intro cur
      rw [chunkLoop]
      split
      · rw [ih]
        simp
      · simp [ih]

/-- When every message's word count exceeds the budget, the loop closes the
current chunk immediately at every step, so each message lands in its own
singleton chunk. -/
theorem chunkLoop_oversized (b : Nat) (l : List Msg)
    (hl : ∀ m ∈ l, b < wordCount m.content) :
    ∀ cur : List Msg, l ≠ [] →
      chunkLoop b cur l = cur :: l.map (fun m => [m]) := by
  induction l with
  | nil =>
      intro cur h
      exact absurd rfl h
  | cons m rest ih =>
      intro cur _
      have hm : b < wordCount m.content := hl m (List.mem_cons_self m rest)
      have hcond : ¬ (cur.length + wordCount m.content ≤ b) := by
        intro hle
        exact absurd (Nat.lt_of_lt_of_le hm (Nat.le_trans (Nat.le_add_left _ _) hle))
          (Nat.lt_irrefl b)
      rw [chunkLoop, if_neg hcond]
      cases rest with
      | nil => simp [chunkLoop]
      | cons m2 rest2 =>
          rw [ih (fun x hx => hl x (List.mem_cons_of_mem m hx)) [m]
            (List.cons_ne_nil m2 rest2)]
          simp

/-- C2: for every input sequence of conversation messages and every token
budget, concatenating the chunks returned by `chunkConversation`, in order,
yields exactly the original input sequence: no message is lost, none is
duplicated, and the relative order of messages is preserved within and across
chunks. -/
theorem chunk_completeness (conversation : List Msg) (tokensPerChunk : Nat) :
    (chunkConversation conversation tokensPerChunk).flatten = conversation := by
  rw [chunkConversation, chunkLoop_flatten]
  rfl

/-- C1: the claimed chunk bound fails on the code.  With budget `4` and two
three-word messages, the loop's test `currentChunk.length + messageTokens.length
<= tokensPerChunk` compares the message COUNT of the current chunk (not its
accumulated word count) with the budget, so both messages land in one chunk
whose summed word count is `6 > 4`, although neither message alone exceeds the
budget. -/
theorem chunk_bound_violation :
    chunkConversation [⟨"user", "a b c"⟩, ⟨"user", "d e f"⟩] 4 =
        [[⟨"user", "a b c"⟩, ⟨"user", "d e f"⟩]] ∧
    chunkWords [⟨"user", "a b c"⟩, ⟨"user", "d e f"⟩] = 6 ∧
    wordCount "a b c" ≤ 4 ∧ wordCount "d e f" ≤ 4 := by
  refine ⟨?_, ?_, ?_, ?_⟩ <;> decide

/-- C7 (counterexample): with budget `0` the code does NOT return exactly one
chunk per input message: a single-message input produces TWO chunks, the first
of them empty, because the closing `else` branch pushes the (empty) current
chunk before starting the new one. -/
theorem degenerate_budget_cex :
    chunkConversation [⟨"user", "hi"⟩] 0 = [[], [⟨"user", "hi"⟩]] ∧
    (chunkConversation [⟨"user", "hi"⟩] 0).length ≠ 1 := by
  exact ⟨by decide, by decide⟩

/-- C7 (amended): with a budget smaller than every message's word count (in
particular budget `0`, since word counts are always ≥ 1), `chunkConversation`
on a non-empty input terminates and returns an empty first chunk followed by
one singleton chunk per input message, in order. -/
theorem degenerate_budget_amended (conversation : List Msg) (b : Nat)
    (hb : ∀ m ∈ conversation, b < wordCount m.content)
    (hne : conversation ≠ []) :
    chunkConversation conversation b =
      [] :: conversation.map (fun m => [m]) := by
  rw [chunkConversation, chunkLoop_oversized b conversation hb [] hne]

/-- Witness for the amended C7 at a concrete input. -/
theorem degenerate_budget_amended_witness :
    chunkConversation [⟨"user", "hi"⟩, ⟨"user", "a b"⟩] 0 =
      [] :: [Msg.mk "user" "hi", Msg.mk "user" "a b"].map (fun m => [m]) :=
  degenerate_budget_amended [⟨"user", "hi"⟩, ⟨"user", "a b"⟩] 0
    (by decide) (by decide)

/-- C8: for every non-empty input whose first message fails the budget test
(its word count exceeds the budget, so `0 + wordCount > tokensPerChunk`), the
first chunk returned by `chunkConversation` is the empty sequence: the closing
branch pushes the current chunk even when it is empty. -/
theorem first_chunk_empty (m : Msg) (rest : List Msg) (b : Nat)
    (h : b < wordCount m.content) :
    (chunkConversation (m :: rest) b).head? = some [] := by
  have hcond : ¬ (([] : List Msg).length + wordCount m.content ≤ b) := by
    simpa using Nat.not_le.mpr h
  rw [chunkConversation, chunkLoop, if_neg hcond]
  rfl

/-- Witness for C8 at a concrete input. -/
theorem first_chunk_empty_witness :
    (chunkConversation [⟨"user", "a b"⟩] 1).head? = some [] :=
  first_chunk_empty ⟨"user", "a b"⟩ [] 1 (by decide)

/-- Folding string concatenation from any accumulator factors the accumulator
out front. -/
theorem stringFoldl_append (l : List String) :
    ∀ acc : String, l.foldl (fun r s => r ++ s) acc =
      acc ++ l.foldl (fun r s => r ++ s) "" := by
  induction l with
  | nil =>
      intro acc
      simp [List.foldl]
  | cons x xs ih =>
      intro acc
      rw [List.foldl, List.foldl, ih (acc ++ x), ih ("" ++ x),
        String.empty_append, String.append_assoc]

/-- Unfolding lemma for `String.join` on a cons cell. -/
theorem stringJoin_cons (x : String) (xs : List String) :
    String.join (x :: xs) = x ++ String.join xs := by
  show List.foldl (fun r s => r ++ s) "" (x :: xs) = _
  rw [List.foldl, stringFoldl_append xs ("" ++ x), String.empty_append]
  rfl

/-- The length of the history after the user message is appended is one more
than the stored length. -/
theorem appendUser_length (stored : Option (List Msg)) (content : String) :
    (appendUser stored content).length = histLen stored + 1 := by
  cases stored <;> simp [appendUser, histLen]

/-- The completion loop emits only `apiCall` events, so it contributes no
reply segment. -/
theorem replySegments_runChunks (respond : List Msg → Except String String)
    (cs : List (List Msg)) :
    ∀ acc : String, replySegments (runChunks respond acc cs).1 = [] := by
  induction cs with
  | nil =>
      intro acc
      rfl
  | cons c cs ih =>
      intro acc
      rw [runChunks]
      cases hr : respond c with
      | error e => rfl
      | ok r =>
          have h2 := ih (acc ++ r)
          simp only [replySegments, List.filterMap_cons] at h2 ⊢
          exact h2

/-- When every chunk's request succeeds, the completion loop returns the
accumulator followed by the concatenation of the per-chunk completions in
order. -/
theorem runChunks_ok_concat (respond : List Msg → Except String String)
    (cs : List (List Msg)) (hok : ∀ c ∈ cs, (respond c).isOk = true) :
    ∀ acc : String, (runChunks respond acc cs).2 =
      Except.ok (acc ++ String.join (cs.map (responseOf respond))) := by
  induction cs with
  | nil =>
      intro acc
      show Except.ok acc = _
      rw [List.map_nil]
      show Except.ok acc = Except.ok (acc ++ "")
      rw [String.append_empty]
  | cons c cs ih =>
      intro acc
      have hc := hok c (List.mem_cons_self c cs)
      rw [runChunks]
      cases hr : respond c with
      | error e =>
          rw [hr] at hc
          exact absurd hc (by simp [Except.isOk, Except.toBool])
      | ok r =>
          have hrest := ih (fun x hx => hok x (List.mem_cons_of_mem c hx)) (acc ++ r)
          simp only [hrest, List.map_cons, stringJoin_cons]
          have hres : responseOf respond c = r := by
            rw [responseOf, hr]
          rw [hres, String.append_assoc]

/-- Success path of the handler: when the content is non-empty and the
completion loop returns `allResponse = s`, the turn stores the trimmed history
and emits thinking, the completion calls, the reply, and the deletion, in
order. -/
theorem messageCreateTurn_ok (respond : List Msg → Except String String)
    (a : String) (stored : Option (List Msg)) (content s : String)
    (h : content ≠ "")
    (hok : (runChunks respond ""
        (chunkConversation (appendUser stored content) tokensPerChunk)).2 =
      Except.ok s) :
    messageCreateTurn respond a stored content =
      (some (if (appendUser stored content ++ [Msg.mk "system" s]).length >
              maxConversationLength
             then (appendUser stored content ++ [Msg.mk "system" s]).drop 2
             else appendUser stored content ++ [Msg.mk "system" s]),
       Event.sendThinking ::
         (runChunks respond ""
            (chunkConversation (appendUser stored content) tokensPerChunk)).1 ++
           [Event.sendReply (a ++ " " ++ s), Event.deleteThinking]) := by
  rw [messageCreateTurn, if_pos h]
  simp only [hok]

/-- Failure path of the handler: when the content is non-empty and the
completion loop fails with error `e`, the turn stores the history with only
the user message appended and emits thinking, the attempted completion calls,
the error notice, and the deletion, in order. -/
theorem messageCreateTurn_error (respond : List Msg → Except String String)
    (a : String) (stored : Option (List Msg)) (content e : String)
    (h : content ≠ "")
    (hfail : (runChunks respond ""
        (chunkConversation (appendUser stored content) tokensPerChunk)).2 =
      Except.error e) :
    messageCreateTurn respond a stored content =
      (some (appendUser stored content),
       Event.sendThinking ::
         (runChunks respond ""
            (chunkConversation (appendUser stored content) tokensPerChunk)).1 ++
           [Event.sendCompletionError e, Event.deleteThinking]) := by
  rw [messageCreateTurn, if_pos h]
  simp only [hfail]

/-- A successful turn emits exactly one reply segment, the author mention
followed by a space and the aggregated completion text. -/
theorem replySegments_turn_ok (respond : List Msg → Except String String)
    (a : String) (stored : Option (List Msg)) (content s : String)
    (h : content ≠ "")
    (hok : (runChunks respond ""
        (chunkConversation (appendUser stored content) tokensPerChunk)).2 =
      Except.ok s) :
    replySegments (messageCreateTurn respond a stored content).2 =
      [a ++ " " ++ s] := by
  rw [messageCreateTurn_ok respond a stored content s h hok]
  have hcalls := replySegments_runChunks respond
    (chunkConversation (appendUser stored content) tokensPerChunk) ""
  simp only [replySegments, List.filterMap_cons, List.filterMap_append,
    List.filterMap_nil] at hcalls ⊢
  rw [hcalls]
  rfl

/-- C6: for every inbound message that mentions the bot, if the message
content is empty after stripping the bot mention and trimming whitespace, the
handler sends only the fixed notice `ERROR: No message content provided.`,
makes no completion-endpoint call, and leaves the channel's conversation
history unchanged. -/
theorem empty_content_turn (respond : List Msg → Except String String)
    (a : String) (stored : Option (List Msg)) :
    messageCreateTurn respond a stored "" = (stored, [Event.sendEmptyNotice]) ∧
    (∀ c : List Msg,
      Event.apiCall c ∉ (messageCreateTurn respond a stored "").2) ∧
    eventText Event.sendEmptyNotice =
      some "ERROR: No message content provided." := by
  have hturn : messageCreateTurn respond a stored "" =
      (stored, [Event.sendEmptyNotice]) := by
    rw [messageCreateTurn, if_neg (by simp)]
  refine ⟨hturn, ?_, rfl⟩
  intro c hc
  rw [hturn] at hc
  simp at hc

/-- C9: when the completion request for a chunk fails, the channel's history
still contains the user message appended at the start of the turn: the handler
appends it before any completion call and the error branch performs no
rollback, so a failed turn leaves the history exactly one entry longer. -/
theorem failed_turn_keeps_user (respond : List Msg → Except String String)
    (a : String) (stored : Option (List Msg)) (content e : String)
    (h : content ≠ "")
    (hfail : (runChunks respond ""
        (chunkConversation (appendUser stored content) tokensPerChunk)).2 =
      Except.error e) :
    (messageCreateTurn respond a stored content).1 =
      some (appendUser stored content) ∧
    Msg.mk "user" content ∈ appendUser stored content ∧
    histLen (messageCreateTurn respond a stored content).1 =
      histLen stored + 1 := by
  have hturn := messageCreateTurn_error respond a stored content e h hfail
  refine ⟨by rw [hturn], ?_, ?_⟩
  · cases stored with
    | none => simp [appendUser]
    | some conversation => simp [appendUser]
  · rw [hturn]
    show (appendUser stored content).length = histLen stored + 1
    exact appendUser_length stored content

/-- Witness for C9 at a concrete input: one stored message, a failing
endpoint. -/
theorem failed_turn_keeps_user_witness :
    (messageCreateTurn (fun _ => Except.error "boom") "@u"
        (some [⟨"user", "a"⟩]) "hi").1 =
      some (appendUser (some [⟨"user", "a"⟩]) "hi") ∧
    Msg.mk "user" "hi" ∈ appendUser (some [⟨"user", "a"⟩]) "hi" ∧
    histLen (messageCreateTurn (fun _ => Except.error "boom") "@u"
        (some [⟨"user", "a"⟩]) "hi").1 =
      histLen (some [⟨"user", "a"⟩]) + 1 :=
  failed_turn_keeps_user (fun _ => Except.error "boom") "@u"
    (some [⟨"user", "a"⟩]) "hi" "boom" (by decide) rfl

/-- C10: on a successful turn the trimming step removes exactly the two oldest
entries when the history length after appending the reply exceeds 10, and
removes nothing otherwise; it never removes more than two entries however far
the length exceeds the bound, and the surviving entries are unchanged and keep
their relative order (the history splits as the two removed entries followed
by the survivors). -/
theorem trim_two_oldest (respond : List Msg → Except String String)
    (a : String) (stored : Option (List Msg)) (content s : String)
    (conversation2 : List Msg)
    (h : content ≠ "")
    (hok : (runChunks respond ""
        (chunkConversation (appendUser stored content) tokensPerChunk)).2 =
      Except.ok s)
    (hconv : conversation2 = appendUser stored content ++ [Msg.mk "system" s]) :
    (messageCreateTurn respond a stored content).1 =
      some (if conversation2.length > maxConversationLength
            then conversation2.drop 2
            else conversation2) ∧
    (conversation2.length > maxConversationLength →
      conversation2.take 2 ++ conversation2.drop 2 = conversation2 ∧
      (conversation2.drop 2).length = conversation2.length - 2) ∧
    (¬ conversation2.length > maxConversationLength →
      (messageCreateTurn respond a stored content).1 = some conversation2) := by
  have hturn := messageCreateTurn_ok respond a stored content s h hok
  subst hconv
  refine ⟨by rw [hturn], ?_, ?_⟩
  · intro _
    exact ⟨List.take_append_drop 2 _, List.length_drop 2 _⟩
  · intro hle
    rw [hturn, if_neg hle]

/-- Witness for C10 at a concrete overflow input: 9 stored entries, so the
post-reply history has 11 entries and the two oldest are dropped. -/
theorem trim_two_oldest_witness :
    (messageCreateTurn (fun _ => Except.ok "r") "@u"
        (some (List.replicate 9 (Msg.mk "user" "m"))) "hi").1 =
      some (if (appendUser (some (List.replicate 9 (Msg.mk "user" "m"))) "hi" ++
              [Msg.mk "system" "r"]).length > maxConversationLength
            then (appendUser (some (List.replicate 9 (Msg.mk "user" "m"))) "hi" ++
              [Msg.mk "system" "r"]).drop 2
            else appendUser (some (List.replicate 9 (Msg.mk "user" "m"))) "hi" ++
              [Msg.mk "system" "r"]) ∧
    ((appendUser (some (List.replicate 9 (Msg.mk "user" "m"))) "hi" ++
        [Msg.mk "system" "r"]).length > maxConversationLength →
      (appendUser (some (List.replicate 9 (Msg.mk "user" "m"))) "hi" ++
          [Msg.mk "system" "r"]).take 2 ++
        (appendUser (some (List.replicate 9 (Msg.mk "user" "m"))) "hi" ++
          [Msg.mk "system" "r"]).drop 2 =
        appendUser (some (List.replicate 9 (Msg.mk "user" "m"))) "hi" ++
          [Msg.mk "system" "r"] ∧
      ((appendUser (some (List.replicate 9 (Msg.mk "user" "m"))) "hi" ++
          [Msg.mk "system" "r"]).drop 2).length =
        (appendUser (some (List.replicate 9 (Msg.mk "user" "m"))) "hi" ++
          [Msg.mk "system" "r"]).length - 2) ∧
    (¬ (appendUser (some (List.replicate 9 (Msg.mk "user" "m"))) "hi" ++
        [Msg.mk "system" "r"]).length > maxConversationLength →
      (messageCreateTurn (fun _ => Except.ok "r") "@u"
          (some (List.replicate 9 (Msg.mk "user" "m"))) "hi").1 =
        some (appendUser (some (List.replicate 9 (Msg.mk "user" "m"))) "hi" ++
          [Msg.mk "system" "r"])) :=
  trim_two_oldest (fun _ => Except.ok "r") "@u"
    (some (List.replicate 9 (Msg.mk "user" "m"))) "hi" "r" _ (by decide) rfl rfl

/-- Joining a singleton list of strings yields its element. -/
theorem stringJoin_singleton (x : String) : String.join [x] = x := by
  rw [stringJoin_cons]
  exact String.append_empty x

/-- A single turn whose completion requests all succeed keeps the history
within the bound. -/
theorem histLen_turn_le (respond : List Msg → Except String String)
    (a : String) (stored : Option (List Msg)) (content : String)
    (hok : ∀ c, (respond c).isOk = true)
    (hlen : histLen stored ≤ maxConversationLength) :
    histLen (messageCreateTurn respond a stored content).1 ≤
      maxConversationLength := by
  by_cases hc : content = ""
  · subst hc
    have hturn : messageCreateTurn respond a stored "" =
        (stored, [Event.sendEmptyNotice]) := by
      rw [messageCreateTurn, if_neg (by simp)]
    rw [hturn]
    exact hlen
  · obtain ⟨s, hs⟩ : ∃ s, (runChunks respond ""
        (chunkConversation (appendUser stored content) tokensPerChunk)).2 =
        Except.ok s :=
      ⟨_, runChunks_ok_concat respond _ (fun c _ => hok c) ""⟩
    rw [messageCreateTurn_ok respond a stored content s hc hs]
    have hlen2 : (appendUser stored content ++ [Msg.mk "system" s]).length =
        histLen stored + 2 := by
      rw [List.length_append, appendUser_length]
      rfl
    show (if _ then List.drop 2 _ else _).length ≤ maxConversationLength
    split
    · rw [List.length_drop, hlen2]
      omega
    · next hgt =>
        rw [Nat.not_lt] at hgt
        omega

/-- Iterating turns whose completion requests all succeed keeps the history
within the bound. -/
theorem histLen_runTurns_le (a : String) (turns : List Turn) :
    ∀ stored : Option (List Msg),
      (∀ t ∈ turns, ∀ c, (t.respond c).isOk = true) →
      histLen stored ≤ maxConversationLength →
      histLen (runTurns a stored turns) ≤ maxConversationLength := by
  induction turns with
  | nil =>
      intro stored _ hlen
      exact hlen
  | cons t ts ih =>
      intro stored hok hlen
      rw [runTurns]
      exact ih _ (fun x hx => hok x (List.mem_cons_of_mem t hx))
        (histLen_turn_le t.respond a stored t.content
          (hok t (List.mem_cons_self t ts)) hlen)

/-- C5 (counterexample): a turn whose completion call fails performs no
trimming, so after 11 failing turns on an initially absent history the
channel's history holds 11 entries, exceeding the configured maximum of 10. -/
theorem history_bound_cex :
    histLen (runTurns "@u" none
      (List.replicate 11 (Turn.mk "hi" (fun _ => Except.error "boom")))) = 11 ∧
    ¬ histLen (runTurns "@u" none
      (List.replicate 11 (Turn.mk "hi" (fun _ => Except.error "boom")))) ≤
        maxConversationLength := by
  refine ⟨?_, ?_⟩ <;> decide

/-- C5 (amended): after any number of turns all of whose completion calls
succeed, the length of a channel's conversation history is at most the
configured maximum (10); and on every successful turn the retained entries are
a suffix of the history as it stood after appending the user message and the
reply, hence the most recent entries in their original relative order.  (A
turn whose completion call fails appends the user message without trimming
and can push the length beyond the bound.) -/
theorem history_bound_amended :
    (∀ (a : String) (stored : Option (List Msg)) (turns : List Turn),
        (∀ t ∈ turns, ∀ c, (t.respond c).isOk = true) →
        histLen stored ≤ maxConversationLength →
        histLen (runTurns a stored turns) ≤ maxConversationLength) ∧
    (∀ (respond : List Msg → Except String String) (a : String)
        (stored : Option (List Msg)) (content s : String),
        content ≠ "" →
        (runChunks respond ""
          (chunkConversation (appendUser stored content) tokensPerChunk)).2 =
          Except.ok s →
        ∀ h2 : List Msg,
          (messageCreateTurn respond a stored content).1 = some h2 →
          h2 <:+ appendUser stored content ++ [Msg.mk "system" s]) := by
  constructor
  · intro a stored turns hok hlen
    exact histLen_runTurns_le a turns stored hok hlen
  · intro respond a stored content s h hs h2 hh2
    rw [messageCreateTurn_ok respond a stored content s h hs] at hh2
    have heq := Option.some.inj hh2
    rw [← heq]
    split
    · exact List.drop_suffix 2 _
    · exact List.suffix_refl _

/-- Witness for the amended C5 at a concrete input: one successful turn from
an empty history. -/
theorem history_bound_amended_witness :
    histLen (runTurns "@u" none [Turn.mk "hi" (fun _ => Except.ok "ok")]) ≤
      maxConversationLength ∧
    [Msg.mk "user" "hi", Msg.mk "system" "ok"] <:+
      appendUser none "hi" ++ [Msg.mk "system" "ok"] := by
  constructor
  · exact history_bound_amended.1 "@u" none
      [Turn.mk "hi" (fun _ => Except.ok "ok")]
      (by
        intro t ht c
        rw [List.mem_singleton] at ht
        subst ht
        rfl)
      (by decide)
  · exact history_bound_amended.2 (fun _ => Except.ok "ok") "@u" none "hi" "ok"
      (by decide) rfl [Msg.mk "user" "hi", Msg.mk "system" "ok"] rfl

/-- C3 (counterexample): the handler performs no 1800-character segmentation.
With a single chunk whose completion is 4000 characters of `x`, exactly ONE
reply segment is emitted, the author mention followed by a space and the whole
4000-character completion; its length is 4003 > 1800, and the number of
segments is 1, not 3. -/
theorem segment_bound_cex :
    replySegments (messageCreateTurn
        (fun _ => Except.ok (String.mk (List.replicate 4000 'x'))) "@u" none
        "hello").2 =
      ["@u" ++ " " ++ String.mk (List.replicate 4000 'x')] ∧
    ("@u" ++ " " ++ String.mk (List.replicate 4000 'x')).length = 4003 ∧
    1800 < ("@u" ++ " " ++ String.mk (List.replicate 4000 'x')).length ∧
    (replySegments (messageCreateTurn
        (fun _ => Except.ok (String.mk (List.replicate 4000 'x'))) "@u" none
        "hello").2).length ≠ 3 := by
  have hseg := replySegments_turn_ok
    (fun _ => Except.ok (String.mk (List.replicate 4000 'x'))) "@u" none
    "hello" (String.mk (List.replicate 4000 'x')) (by decide) rfl
  have hlen : ("@u" ++ " " ++ String.mk (List.replicate 4000 'x')).length =
      4003 := by
    have h4000 : (String.mk (List.replicate 4000 'x')).length = 4000 := by
      rw [String.length_mk, List.length_replicate]
    rw [String.length_append, String.length_append, h4000]
    decide
  refine ⟨hseg, hlen, ?_, ?_⟩
  · rw [hlen]
    decide
  · rw [hseg]
    decide

/-- C3 (amended): each successful turn emits exactly one reply segment, whose
text is the author mention, a space, and the aggregated completion text, and
whose length is the mention's length plus one plus the completion's length —
unbounded by 1800. -/
theorem reply_single_segment (respond : List Msg → Except String String)
    (a : String) (stored : Option (List Msg)) (content s : String)
    (h : content ≠ "")
    (hok : (runChunks respond ""
        (chunkConversation (appendUser stored content) tokensPerChunk)).2 =
      Except.ok s) :
    replySegments (messageCreateTurn respond a stored content).2 =
      [a ++ " " ++ s] ∧
    (a ++ " " ++ s).length = a.length + 1 + s.length := by
  refine ⟨replySegments_turn_ok respond a stored content s h hok, ?_⟩
  rw [String.length_append, String.length_append]
  have hsp : String.length " " = 1 := rfl
  rw [hsp]

/-- Witness for the amended C3 at a concrete input. -/
theorem reply_single_segment_witness :
    replySegments (messageCreateTurn (fun _ => Except.ok "hi") "@u" none
        "hello").2 = ["@u" ++ " " ++ "hi"] ∧
    ("@u" ++ " " ++ "hi").length = "@u".length + 1 + "hi".length :=
  reply_single_segment (fun _ => Except.ok "hi") "@u" none "hello" "hi"
    (by decide) rfl

/-- C4 (counterexample): the concatenation of the emitted reply segments does
NOT equal the concatenation of the per-chunk completion texts: the author
mention and a space are prepended.  With one chunk whose completion is `hi`,
the single reply segment concatenates to `@u hi`, not `hi`. -/
theorem assembly_cex :
    chunkConversation [Msg.mk "user" "hello"] tokensPerChunk =
      [[Msg.mk "user" "hello"]] ∧
    responseOf (fun _ => Except.ok "hi") [Msg.mk "user" "hello"] = "hi" ∧
    String.join (replySegments (messageCreateTurn (fun _ => Except.ok "hi")
        "@u" none "hello").2) = "@u hi" ∧
    ("@u hi" : String) ≠ "hi" := by
  refine ⟨by decide, rfl, by decide, by decide⟩

/-- C4 (amended): when every chunk's completion request succeeds, the
concatenation of all emitted reply segments equals the author mention, a
space, and the concatenation of the per-chunk completion texts in chunk order:
all completion text is preserved in order, with the mention as the only
addition. -/
theorem assembly_amended (respond : List Msg → Except String String)
    (a : String) (stored : Option (List Msg)) (content : String)
    (h : content ≠ "")
    (hok : ∀ c ∈ chunkConversation (appendUser stored content) tokensPerChunk,
      (respond c).isOk = true) :
    String.join (replySegments (messageCreateTurn respond a stored content).2) =
      a ++ " " ++ String.join
        ((chunkConversation (appendUser stored content) tokensPerChunk).map
          (responseOf respond)) := by
  have hs := runChunks_ok_concat respond _ hok ""
  rw [String.empty_append] at hs
  rw [replySegments_turn_ok respond a stored content _ h hs]
  exact stringJoin_singleton _

/-- Witness for the amended C4 at a concrete input. -/
theorem assembly_amended_witness :
    String.join (replySegments (messageCreateTurn (fun _ => Except.ok "hi")
        "@u" none "hello").2) =
      "@u" ++ " " ++ String.join
        ((chunkConversation (appendUser none "hello") tokensPerChunk).map
          (responseOf (fun _ => Except.ok "hi"))) :=
  assembly_amended (fun _ => Except.ok "hi") "@u" none "hello" (by decide)
    (fun c _ => rfl)

end OpenAIDiscord
